import Mathlib

/-!
Shallow embedding of the SearchEngine-Project repository (Python) in Lean 4.

The embedding follows the source files
`src/indexer/inverted_index.py`, `src/indexer/tfidf_calculator.py`,
`src/indexer/cosine_similarity.py`, `src/processor/results_generator.py`
and `src/processor/query_validator.py`.

Modelling conventions:
* Python dictionaries become association lists (`List (String × β)`);
  assignment keeps an existing key's position and appends new keys, which
  matches the insertion-order semantics of Python 3.7+ dicts.
* Python sets (the vocabulary, the set of relevant documents during boolean
  search) become lists in a definite traversal order; set membership and
  set intersection are modelled by list membership and ordered filtering.
* Python floats become elements of a linear ordered field (instantiated at
  `ℚ` for executable claims and at `ℝ` where `log`/`sqrt` are inherent);
  `math.log`/`np.sqrt` are passed as function parameters so that every
  definition stays executable, and theorems instantiate them with
  `Real.log`/`Real.sqrt`.
* NLTK tokenisation/stemming (`preprocess_text`) is an external library
  pipeline; definitions that call it take the `preprocess` function as a
  parameter.
* `logger.warning`/`logger.debug` calls become explicit log entries
  returned next to the new state.
-/

namespace SearchEngine

/-- Severity levels of the diagnostics the code emits via `logger`. -/
inductive LogLevel where
  | debug
  | info
  | warning
  | error
deriving DecidableEq, Repr

/-- One diagnostic record emitted by the code. -/
structure LogEntry where
  level : LogLevel
  msg : String
deriving DecidableEq, Repr

/-- Association-list lookup, modelling Python dictionary access `d.get(k)`. -/
def alistGet? {β : Type _} (l : List (String × β)) (k : String) : Option β :=
  match l with
  | [] => none
  | (k', v) :: rest => if k' = k then some v else alistGet? rest k

/-- Association-list update, modelling Python dictionary assignment
`d[k] = v`: an existing key keeps its position, a new key is appended. -/
def alistSet {β : Type _} (l : List (String × β)) (k : String) (v : β) :
    List (String × β) :=
  match l with
  | [] => [(k, v)]
  | (k', v') :: rest => if k' = k then (k, v) :: rest else (k', v') :: alistSet rest k v

/-- Per-document metadata stored by `InvertedIndex.add_document`. -/
structure DocMeta where
  url : String
  title : String
  word_count : Nat
  token_count : Nat
deriving DecidableEq, Repr

/-- The optional `metadata` argument of `add_document` (url and title). -/
structure MetaIn where
  url : String
  title : String
deriving DecidableEq, Repr

/-- State of an `InvertedIndex` instance: `index` maps a term to a mapping
from document id to the list of positions, `document_metadata` maps a
document id to its metadata, `vocabulary` is the term set (in traversal
order) and `total_documents` counts added documents. -/
structure IndexState where
  index : List (String × List (String × List Nat))
  document_metadata : List (String × DocMeta)
  vocabulary : List String
  total_documents : Nat
deriving DecidableEq, Repr

/-- The freshly constructed `InvertedIndex` (empty containers, zero count). -/
def emptyIndex : IndexState :=
  { index := [], document_metadata := [], vocabulary := [], total_documents := 0 }

/-- Set insertion for the vocabulary, modelling `self.vocabulary.add(term)`. -/
def vocabAdd (vocab : List String) (t : String) : List String :=
  if t ∈ vocab then vocab else vocab ++ [t]

/-- Append a position to a term's position list inside the `term_positions`
accumulator, modelling `term_positions[token].append(position)`. -/
def appendPos (acc : List (String × List Nat)) (t : String) (p : Nat) :
    List (String × List Nat) :=
  match alistGet? acc t with
  | some ps => alistSet acc t (ps ++ [p])
  | none => alistSet acc t [p]

/-- The loop `for position, token in enumerate(tokens)` that builds the
`term_positions` dictionary in `add_document`. -/
def termPositionsAux (pos : Nat) (acc : List (String × List Nat)) :
    List String → List (String × List Nat)
  | [] => acc
  | t :: ts => termPositionsAux (pos + 1) (appendPos acc t pos) ts

/-- The `term_positions` dictionary of `add_document` for a token list. -/
def termPositions (tokens : List String) : List (String × List Nat) :=
  termPositionsAux 0 [] tokens

/-- Embedding of `InvertedIndex.add_document`. The NLTK-based
`preprocess_text` is passed as a parameter. Returns the new state together
with the diagnostics the method logs. -/
def addDocument (preprocess : String → List String) (st : IndexState)
    (documentId : String) (content : String) (metadata : Option MetaIn) :
    IndexState × List LogEntry :=
  if content = "" then
    (st, [⟨.warning, "Empty content for document " ++ documentId⟩])
  else
    let tokens := preprocess content
    if tokens = [] then
      (st, [⟨.warning, "No valid tokens found for document " ++ documentId⟩])
    else
      let meta : DocMeta :=
        { url := (metadata.map MetaIn.url).getD ""
          title := (metadata.map MetaIn.title).getD ""
          word_count := tokens.length
          token_count := tokens.length }
      let st1 := { st with
        document_metadata := alistSet st.document_metadata documentId meta }
      let st2 := (termPositions tokens).foldl (fun s tp =>
        { s with
          index := alistSet s.index tp.1
            (alistSet ((alistGet? s.index tp.1).getD []) documentId tp.2)
          vocabulary := vocabAdd s.vocabulary tp.1 }) st1
      ({ st2 with total_documents := st2.total_documents + 1 },
       [⟨.debug, "Added document " ++ documentId ++ " with " ++
          toString tokens.length ++ " tokens"⟩])

/-- Embedding of `InvertedIndex.get_document_frequency`. -/
def getDocumentFrequency (st : IndexState) (term : String) : Nat :=
  ((alistGet? st.index term).getD []).length

/-- Embedding of `InvertedIndex.get_term_frequency`. -/
def getTermFrequency (st : IndexState) (term : String) (documentId : String) : Nat :=
  (((alistGet? st.index term).bind fun docs => alistGet? docs documentId).getD []).length

/-- One entry of the result list returned by `InvertedIndex.search`. -/
structure SearchResult where
  document_id : String
  score : Nat
  metadata : Option DocMeta
deriving DecidableEq, Repr

/-- The descending-by-score comparison `results.sort(key=..., reverse=True)`
realises for boolean-search results. -/
def byScoreDesc (a b : SearchResult) : Prop :=
  b.score ≤ a.score

instance : DecidableRel byScoreDesc :=
  fun a b => inferInstanceAs (Decidable (b.score ≤ a.score))

instance : IsTotal SearchResult byScoreDesc :=
  ⟨fun a b => Nat.le_total b.score a.score⟩

instance : IsTrans SearchResult byScoreDesc :=
  ⟨fun _ _ _ h1 h2 => Nat.le_trans h2 h1⟩

/-- One iteration of the relevant-document loop of `InvertedIndex.search`:
a term present in the index either initialises the set (when it is still
empty) or intersects it; a term absent from the index is skipped. -/
def relevantStep (st : IndexState) (acc : List String) (term : String) : List String :=
  match alistGet? st.index term with
  | none => acc
  | some docs =>
      if acc = [] then docs.map Prod.fst
      else acc.filter (fun d => (docs.map Prod.fst).contains d)

/-- The loop of `InvertedIndex.search` that computes the set of relevant
documents. -/
def relevantDocs (st : IndexState) (queryTerms : List String) : List String :=
  queryTerms.foldl (relevantStep st) []

/-- Embedding of `InvertedIndex.search` on the already normalised query-term
list: gather relevant documents, score each by the summed term frequency,
sort descending by score (Python's stable sort), truncate to `top_k`. -/
def searchTerms (st : IndexState) (queryTerms : List String) (topK : Nat) :
    List SearchResult :=
  if queryTerms = [] then []
  else
    let results := (relevantDocs st queryTerms).map (fun d =>
      { document_id := d
        score := (queryTerms.map (fun t => getTermFrequency st t d)).sum
        metadata := alistGet? st.document_metadata d })
    (results.insertionSort byScoreDesc).take topK

/-- Embedding of `InvertedIndex.search` on a raw query string. -/
def search (preprocess : String → List String) (st : IndexState)
    (query : String) (topK : Nat) : List SearchResult :=
  searchTerms st (preprocess query) topK

/-- Dot product of two vectors represented as lists (`np.dot`). -/
def dotList {α : Type _} [LinearOrderedField α] (a b : List α) : α :=
  ((a.zip b).map fun p => p.1 * p.2).sum

/-- Euclidean norm `np.linalg.norm(v)`, with the square root passed as a
parameter (instantiated with `Real.sqrt` in theorems). -/
def normVia {α : Type _} [LinearOrderedField α] (sqrt : α → α) (v : List α) : α :=
  sqrt (dotList v v)

/-- Embedding of `CosineSimilarity.calculate_similarity`: cosine of the two
vectors, defined as `0.0` when either norm is zero. -/
def calculateSimilarity {α : Type _} [LinearOrderedField α] (sqrt : α → α)
    (vectorA vectorB : List α) : α :=
  let normA := normVia sqrt vectorA
  let normB := normVia sqrt vectorB
  if normA = 0 ∨ normB = 0 then 0
  else dotList vectorA vectorB / (normA * normB)

/-- The descending-by-similarity comparison
`scores.sort(key=..., reverse=True)` realises for similarity pairs. -/
def bySimDesc {α : Type _} [LinearOrder α] (a b : String × α) : Prop :=
  b.2 ≤ a.2

instance {α : Type _} [LinearOrder α] : DecidableRel (@bySimDesc α _) :=
  fun a b => inferInstanceAs (Decidable (b.2 ≤ a.2))

instance {α : Type _} [LinearOrder α] : IsTotal (String × α) bySimDesc :=
  ⟨fun a b => le_total b.2 a.2⟩

instance {α : Type _} [LinearOrder α] : IsTrans (String × α) bySimDesc :=
  ⟨fun _ _ _ h1 h2 => le_trans h2 h1⟩

/-- Embedding of `CosineSimilarity.rank_documents`: score every document
vector (in the insertion order of the `document_vectors` dictionary), sort
descending by similarity with Python's stable sort, truncate to `top_k`. -/
def rankDocuments {α : Type _} [LinearOrderedField α] (sqrt : α → α)
    (queryVector : List α) (documentVectors : List (String × List α))
    (topK : Nat) : List (String × α) :=
  let scores := documentVectors.map fun dv =>
    (dv.1, calculateSimilarity sqrt queryVector dv.2)
  (scores.insertionSort bySimDesc).take topK

/-- State of a `TFIDFCalculator` instance. -/
structure TfidfCalc (α : Type _) where
  index : IndexState
  term_to_index : List (String × Nat)
  document_vectors : List (String × List α)

/-- The `enumerate` loop that numbers the vocabulary when
`calculate_tfidf` builds `term_to_index`. -/
def enumerateFrom (n : Nat) : List String → List (String × Nat)
  | [] => []
  | t :: ts => (t, n) :: enumerateFrom (n + 1) ts

/-- The `doc_word_count` read in `calculate_tfidf`:
`document_metadata[doc_id].get('word_count', 1)`. -/
def docWordCount (st : IndexState) (docId : String) : Nat :=
  ((alistGet? st.document_metadata docId).map DocMeta.word_count).getD 1

/-- The TF-IDF weight `calculate_tfidf` writes for one `(term, doc)` pair:
`some` of `tf * idf` when the document appears in the term's posting map,
`none` (no write) otherwise. `lg` is the natural logarithm parameter. -/
def tfidfEntry? {α : Type _} [LinearOrderedField α] (lg : α → α)
    (st : IndexState) (docId term : String) : Option α :=
  match alistGet? st.index term with
  | none => none
  | some docs =>
    match alistGet? docs docId with
    | none => none
    | some positions =>
        some ((positions.length : α) / (docWordCount st docId : α) *
          (lg (((st.total_documents : α) + 1) / ((docs.length : α) + 1)) + 1))

/-- The vector-filling loop of `calculate_tfidf`: for each `(term, idx)` of
`term_to_index`, write the weight at `idx` when there is one. -/
def writeEntries {α : Type _} (f : String → Option α) :
    List (String × Nat) → List α → List α
  | [], vec => vec
  | (t, i) :: ps, vec =>
      writeEntries f ps
        (match f t with
         | some v => vec.set i v
         | none => vec)

/-- The TF-IDF vector `calculate_tfidf` computes for one document. -/
def tfidfVector {α : Type _} [LinearOrderedField α] (lg : α → α)
    (st : IndexState) (docId : String) : List α :=
  writeEntries (fun t => tfidfEntry? lg st docId t) (enumerateFrom 0 st.vocabulary)
    (List.replicate st.vocabulary.length 0)

/-- Embedding of `TFIDFCalculator.calculate_tfidf`: rebuild `term_to_index`
from the vocabulary and compute one TF-IDF vector per indexed document. -/
def calculateTfidf {α : Type _} [LinearOrderedField α] (lg : α → α)
    (c : TfidfCalc α) : TfidfCalc α :=
  { c with
    term_to_index := enumerateFrom 0 c.index.vocabulary
    document_vectors := c.index.document_metadata.map fun dm =>
      (dm.1, tfidfVector lg c.index dm.1) }

/-- The `term_freq` counter dictionary built in `get_query_vector`. -/
def termFreqCounter (terms : List String) : List (String × Nat) :=
  terms.foldl (fun acc t =>
    match alistGet? acc t with
    | some n => alistSet acc t (n + 1)
    | none => alistSet acc t 1) []

/-- Embedding of `TFIDFCalculator.get_query_vector`: a zero vector of the
vocabulary's size, returned as is for an empty term list, otherwise filled
with `tf * idf` at the `term_to_index` position of each known query term. -/
def getQueryVector {α : Type _} [LinearOrderedField α] (lg : α → α)
    (c : TfidfCalc α) (queryTerms : List String) : List α :=
  let vocabularySize := c.index.vocabulary.length
  let queryVector := List.replicate vocabularySize (0 : α)
  if queryTerms = [] then queryVector
  else
    let queryLength := queryTerms.length
    (termFreqCounter queryTerms).foldl (fun vec tf =>
      match alistGet? c.term_to_index tf.1 with
      | none => vec
      | some idx =>
          let tfWeight : α := (tf.2 : α) / (queryLength : α)
          let documentFrequency := ((alistGet? c.index.index tf.1).getD []).length
          let idf : α := lg (((c.index.total_documents : α) + 1) /
            ((documentFrequency : α) + 1)) + 1
          vec.set idx (tfWeight * idf)) queryVector

/-- State-passing wrapper of `get_query_vector`, making explicit that the
method only reads the calculator and the index (it assigns to neither). -/
def getQueryVectorRun {α : Type _} [LinearOrderedField α] (lg : α → α)
    (c : TfidfCalc α) (queryTerms : List String) : TfidfCalc α × List α :=
  (c, getQueryVector lg c queryTerms)

/-- Embedding of `TFIDFCalculator.get_document_scores`: cosine similarity of
the query vector against every stored document vector, with the zero-norm
guard inlined exactly as in the source. -/
def getDocumentScores {α : Type _} [LinearOrderedField α] (sqrt : α → α)
    (c : TfidfCalc α) (queryVector : List α) : List (String × α) :=
  c.document_vectors.map fun dv =>
    let dotProduct := dotList queryVector dv.2
    let queryNorm := sqrt (dotList queryVector queryVector)
    let docNorm := sqrt (dotList dv.2 dv.2)
    (dv.1, if queryNorm = 0 ∨ docNorm = 0 then 0
           else dotProduct / (queryNorm * docNorm))

/-- JSON values, as produced by `json.dump` and consumed by `json.load` in
`save_index`/`load_index` (numbers restricted to integers, which is all the
index data contains). -/
inductive JVal where
  | jnum : Int → JVal
  | jstr : String → JVal
  | jarr : List JVal → JVal
  | jobj : List (String × JVal) → JVal

/-- Decode each element of a list, failing when any element fails
(the element-wise conversion loop of `load_index`). -/
def optionMapList {γ β : Type _} (g : γ → Option β) : List γ → Option (List β)
  | [] => some []
  | x :: xs =>
    match g x, optionMapList g xs with
    | some y, some ys => some (y :: ys)
    | _, _ => none

/-- Encode a position list as a JSON array of numbers. -/
def encodePositions (ps : List Nat) : JVal :=
  .jarr (ps.map fun p => .jnum (Int.ofNat p))

/-- Decode a JSON array of non-negative numbers back to a position list. -/
def decodePositions : JVal → Option (List Nat)
  | .jarr xs =>
      optionMapList (fun x =>
        match x with
        | .jnum n => if 0 ≤ n then some n.toNat else none
        | _ => none) xs
  | _ => none

/-- Encode one term's posting map (document id to positions) as a JSON
object, as the `{term: dict(docs)}` conversion in `save_index` does. -/
def encodePostings (docs : List (String × List Nat)) : JVal :=
  .jobj (docs.map fun d => (d.1, encodePositions d.2))

/-- Decode one term's posting map. -/
def decodePostings : JVal → Option (List (String × List Nat))
  | .jobj fields =>
      optionMapList (fun f => (decodePositions f.2).map fun ps => (f.1, ps)) fields
  | _ => none

/-- Encode the whole term-to-postings index as a JSON object. -/
def encodeIndexMap (idx : List (String × List (String × List Nat))) : JVal :=
  .jobj (idx.map fun t => (t.1, encodePostings t.2))

/-- Decode the whole term-to-postings index (the
`for term, docs in index_data['index'].items()` loop of `load_index`). -/
def decodeIndexMap : JVal → Option (List (String × List (String × List Nat)))
  | .jobj fields =>
      optionMapList (fun f => (decodePostings f.2).map fun docs => (f.1, docs)) fields
  | _ => none

/-- Encode one document's metadata record. -/
def encodeMeta (m : DocMeta) : JVal :=
  .jobj [("url", .jstr m.url), ("title", .jstr m.title),
         ("word_count", .jnum m.word_count), ("token_count", .jnum m.token_count)]

/-- Decode one document's metadata record. -/
def decodeMeta : JVal → Option DocMeta
  | .jobj [("url", .jstr u), ("title", .jstr t),
           ("word_count", .jnum w), ("token_count", .jnum k)] =>
      if 0 ≤ w ∧ 0 ≤ k then
        some { url := u, title := t, word_count := w.toNat, token_count := k.toNat }
      else none
  | _ => none

/-- Embedding of `InvertedIndex.save_index`: the JSON document written to
disk (file I/O and text serialisation of the `json` library abstracted). -/
def saveIndex (st : IndexState) : JVal :=
  .jobj [("index", encodeIndexMap st.index),
         ("document_metadata",
           .jobj (st.document_metadata.map fun d => (d.1, encodeMeta d.2))),
         ("vocabulary", .jarr (st.vocabulary.map .jstr)),
         ("total_documents", .jnum st.total_documents)]

/-- Embedding of `InvertedIndex.load_index` on a parsed JSON document: read
the four fields back into a fresh state, failing (the method re-raises) on
any malformed field. -/
def loadIndex (j : JVal) : Option IndexState :=
  match j with
  | .jobj fields =>
      match alistGet? fields "index", alistGet? fields "document_metadata",
            alistGet? fields "vocabulary", alistGet? fields "total_documents" with
      | some ji, some jm, some jv, some jt =>
          match decodeIndexMap ji,
                (match jm with
                 | .jobj mfields =>
                     optionMapList (fun f => (decodeMeta f.2).map fun m => (f.1, m)) mfields
                 | _ => none),
                (match jv with
                 | .jarr xs =>
                     optionMapList (fun x =>
                       match x with
                       | JVal.jstr s => some s
                       | _ => none) xs
                 | _ => none),
                jt with
          | some idx, some meta, some vocab, .jnum n =>
              if 0 ≤ n then
                some { index := idx, document_metadata := meta,
                       vocabulary := vocab, total_documents := n.toNat }
              else none
          | _, _, _, _ => none
      | _, _, _, _ => none
  | _ => none

/-- Python `str.lower()` on the character list (ASCII case folding, which
is all the validator's inputs use). -/
def toLowerStr (s : String) : String :=
  String.mk (s.toList.map Char.toLower)

/-- ASCII whitespace, modelling `\s` of Python regular expressions and the
characters stripped by `str.strip()` (the queries under consideration are
ASCII). -/
def isPySpace (c : Char) : Bool :=
  c == ' ' || c == '\t' || c == '\n' || c == '\r' || c == '\x0b' || c == '\x0c'

/-- Python `str.strip()` on the character list. -/
def stripChars (cs : List Char) : List Char :=
  ((cs.dropWhile isPySpace).reverse.dropWhile isPySpace).reverse

/-- Python `str.strip()`. -/
def pyStrip (s : String) : String :=
  String.mk (stripChars s.toList)

/-- Membership in the validator's character allow-list
`[a-zA-Z0-9\s\.\,\-\?\!\"\'\:\;]`. -/
def allowedChar (c : Char) : Bool :=
  c.isAlpha || c.isDigit || isPySpace c ||
    c == '.' || c == ',' || c == '-' || c == '?' || c == '!' ||
    c == '"' || c == '\'' || c == ':' || c == ';'

/-- The distinct `error_code` values `validate_query` can return. -/
inductive ErrorCode where
  | emptyQuery
  | queryTooShort
  | queryTooLong
  | invalidCharacters
deriving DecidableEq, Repr

/-- Outcome of `validate_query`: a terminal invalid verdict (with its error
code and, for the character check, the offending characters), or a valid
verdict carrying the cleaned query that the later stages receive. -/
inductive ValidationResult where
  | invalid (code : ErrorCode) (invalidChars : List Char)
  | valid (cleaned : String)
deriving DecidableEq

/-- Embedding of `EnhancedQueryValidator._find_invalid_characters`: the
characters outside the allow-list, deduplicated in first-occurrence order. -/
def findInvalidCharacters (q : String) : List Char :=
  q.toList.foldl (fun acc c =>
    if allowedChar c then acc
    else if c ∈ acc then acc else acc ++ [c]) []

/-- The words of `str.split()` (maximal runs of non-whitespace). -/
def wsWordsAux (cur : List Char) (acc : List (List Char)) :
    List Char → List (List Char)
  | [] => if cur = [] then acc else acc ++ [cur]
  | c :: cs =>
      if isPySpace c then
        if cur = [] then wsWordsAux [] acc cs else wsWordsAux [] (acc ++ [cur]) cs
      else wsWordsAux (cur ++ [c]) acc cs

/-- Characters kept by the cleaning regex `[^\w\s\.\,\-\?\!\"\'\:\;]`
removal: word characters, whitespace and the basic punctuation. -/
def cleanKeepChar (c : Char) : Bool :=
  c.isAlphanum || c == '_' || isPySpace c ||
    c == '.' || c == ',' || c == '-' || c == '?' || c == '!' ||
    c == '"' || c == '\'' || c == ':' || c == ';'

/-- Embedding of `EnhancedQueryValidator._clean_query`: lowercase, collapse
whitespace runs to single spaces, drop characters the cleaning regex
removes, strip. -/
def cleanQuery (q : String) : String :=
  let collapsed := ((wsWordsAux [] [] (toLowerStr q).toList).intersperse [' ']).flatten
  String.mk (stripChars (collapsed.filter cleanKeepChar))

/-- The validator's limits `max_query_length = 200`, `min_query_length = 1`. -/
def maxQueryLength : Nat := 200

/-- Minimum query length accepted by the validator. -/
def minQueryLength : Nat := 1

/-- Embedding of `EnhancedQueryValidator.validate_query`: the guard cascade
(empty, too short, too long, disallowed characters) with its early returns;
only when every guard passes does the method go on to cleaning,
spell-checking and expansion, summarised here by the cleaned query. -/
def validateQuery (q : String) : ValidationResult :=
  if pyStrip q = "" then .invalid .emptyQuery []
  else if q.length < minQueryLength then .invalid .queryTooShort []
  else if maxQueryLength < q.length then .invalid .queryTooLong []
  else if !(q.toList.all allowedChar) then
    .invalid .invalidCharacters (findInvalidCharacters q)
  else .valid (cleanQuery q)

/-- One row-update step of the Levenshtein dynamic program: `p0`/`p1` walk
the previous row, `left` is the value just written in the new row. -/
def levRow (c : Char) : List Char → List Nat → Nat → List Nat
  | bc :: bs, p0 :: p1 :: ps, left =>
      let cur := min (min (p1 + 1) (left + 1)) (p0 + if c = bc then 0 else 1)
      cur :: levRow c bs (p1 :: ps) cur
  | _, _, _ => []

/-- Compute the next Levenshtein row for one character of the first word. -/
def levNextRow (c : Char) (bcs : List Char) (prev : List Nat) : List Nat :=
  match prev with
  | [] => []
  | p0 :: rest => (p0 + 1) :: levRow c bcs (p0 :: rest) (p0 + 1)

/-- Levenshtein edit distance (insertions, deletions, substitutions of cost
one), the metric `nltk.metrics.edit_distance` computes with its default
arguments. -/
def levenshtein (a b : List Char) : Nat :=
  (a.foldl (fun row c => levNextRow c b row) (List.range (b.length + 1))).getLastD 0

/-- Edit distance on strings. -/
def editDistance (a b : String) : Nat :=
  levenshtein a.toList b.toList

/-- The normalized similarity `_find_best_correction` computes for a
vocabulary word: `1 - edit_distance(word.lower(), v.lower()) /
max(len(word), len(v))`. -/
def candidateSimilarity (word vocabWord : String) : ℚ :=
  1 - (editDistance (toLowerStr word) (toLowerStr vocabWord) : ℚ) /
    ((max word.length vocabWord.length : Nat) : ℚ)

/-- The candidate heap contents of `_find_best_correction`: every vocabulary
word whose similarity clears the `0.6` threshold, paired with its
similarity. -/
def thresholdCandidates (vocabulary : List String) (word : String) :
    List (ℚ × String) :=
  (vocabulary.filter fun v => 3/5 < candidateSimilarity word v).map fun v =>
    (candidateSimilarity word v, v)

/-- The element `heapq.heappop` returns: the candidate minimising the pushed
pair `(-similarity, word)`, i.e. of maximal similarity, ties resolved to the
lexicographically smallest word. -/
def pickBest : List (ℚ × String) → Option (ℚ × String)
  | [] => none
  | c :: cs =>
    match pickBest cs with
    | none => some c
    | some best =>
        if best.1 < c.1 ∨ (c.1 = best.1 ∧ c.2 < best.2) then some c else some best

/-- Embedding of `EnhancedQueryValidator._find_best_correction`: the best
threshold-clearing vocabulary candidate, or the word itself when none
clears the threshold. -/
def findBestCorrection (vocabulary : List String) (word : String) : String :=
  match pickBest (thresholdCandidates vocabulary word) with
  | some best => best.2
  | none => word

/-- Embedding of `EnhancedQueryValidator._calculate_confidence`. -/
def calculateConfidence (original correction : String) : ℚ :=
  let distance := editDistance (toLowerStr original) (toLowerStr correction)
  let maxLen : Nat := max original.length correction.length
  let similarity : ℚ := 1 - (distance : ℚ) / (maxLen : ℚ)
  let lengthFactor : ℚ := min ((original.length : ℚ) / 10) 1
  similarity * lengthFactor

/-- The spell-checker vocabulary the validator builds at start-up: the words
of `common_queries` plus the `technical_terms` set (duplicates removed;
`findBestCorrection` is insensitive to the set's traversal order). -/
def validatorVocabulary : List String :=
  ["search", "engine", "web", "crawling", "information", "retrieval",
   "machine", "learning", "natural", "language", "processing", "tf-idf",
   "scoring", "cosine", "similarity", "inverted", "index", "scraping",
   "document", "ranking", "text", "mining", "vector", "space", "model",
   "relevance", "algorithm", "python", "programming", "flask", "framework",
   "scrapy", "data", "big", "artificial", "intelligence", "tfidf",
   "indexing", "crawler", "semantic", "syntactic", "morphological",
   "stemming", "lemmatization", "tokenization", "normalization"]

/-- Enhancement factors computed by
`EnhancedResultsGenerator._calculate_enhancement_factors`. -/
structure RankFactors where
  document_length : ℚ
  title_match : ℚ
  url_authority : ℚ
  content_freshness : ℚ
deriving DecidableEq, Repr

/-- The metadata fields the enhanced ranking reads (with the `dict.get`
defaults already applied; `timestamp` is `none` when the key is absent). -/
structure RankMeta where
  word_count : Nat
  title : String
  url : String
  timestamp : Option String
deriving DecidableEq, Repr

/-- The `authority_scores` table of `_calculate_url_authority`, in its
insertion order. -/
def authorityScores : List (String × ℚ) :=
  [("wikipedia.org", 9/10), ("github.com", 8/10), ("stackoverflow.com", 8/10),
   ("medium.com", 6/10), ("arxiv.org", 9/10), ("ieee.org", 9/10),
   ("acm.org", 9/10), ("realpython.com", 8/10), ("docs.python.org", 9/10),
   ("developer.mozilla.org", 8/10)]

/-- Decide whether `needle` is an initial segment of `hay`. -/
def startsWithList (needle hay : List Char) : Bool :=
  match needle, hay with
  | [], _ => true
  | _ :: _, [] => false
  | n :: ns, h :: hs => n == h && startsWithList ns hs

/-- Substring test, modelling Python's `needle in hay` on strings. -/
def containsSubList (needle : List Char) : List Char → Bool
  | [] => startsWithList needle []
  | c :: hs => startsWithList needle (c :: hs) || containsSubList needle hs

/-- Substring test on strings. -/
def strContains (hay needle : String) : Bool :=
  containsSubList needle.toList hay.toList

/-- The domain-table walk of `_calculate_url_authority`: first domain that
occurs in the lowercased URL wins, default `0.5`. -/
def authorityLookup : List (String × ℚ) → String → ℚ
  | [], _ => 1/2
  | (domain, score) :: rest, url =>
      if strContains (toLowerStr url) domain then score else authorityLookup rest url

/-- Embedding of `EnhancedResultsGenerator._calculate_url_authority`. -/
def calculateUrlAuthority (url : String) : ℚ :=
  authorityLookup authorityScores url

/-- The placeholder `_calculate_freshness_score` returns `0.7`. -/
def calculateFreshnessScore : ℚ := 7/10

/-- Embedding of
`EnhancedResultsGenerator._calculate_enhancement_factors`: start from the
neutral defaults, then overwrite document length (only when the word count
is positive), title match (only for a non-empty title), URL authority (only
for a non-empty URL) and freshness (only when a timestamp is present). -/
def calculateEnhancementFactors (preprocess : String → List String)
    (meta : RankMeta) (queryTerms : List String) : RankFactors :=
  let base : RankFactors :=
    { document_length := 1/2, title_match := 0,
      url_authority := 1/2, content_freshness := 1/2 }
  let lengthRatio : ℚ :=
    min ((meta.word_count : ℚ) / 1000) (1000 / (meta.word_count : ℚ))
  let f1 :=
    if 0 < meta.word_count then { base with document_length := lengthRatio }
    else base
  let titleLower := toLowerStr meta.title
  let f2 :=
    if titleLower ≠ "" then
      let titleWords := (preprocess titleLower).dedup
      let querySet := queryTerms.dedup
      let titleOverlap : ℚ :=
        if querySet ≠ [] then
          ((titleWords.filter fun w => w ∈ querySet).length : ℚ) /
            (querySet.length : ℚ)
        else 0
      { f1 with title_match := min (titleOverlap * 2) 1 }
    else f1
  let f3 :=
    if meta.url ≠ "" then { f2 with url_authority := calculateUrlAuthority meta.url }
    else f2
  match meta.timestamp with
  | some _ => { f3 with content_freshness := calculateFreshnessScore }
  | none => f3

/-- Embedding of `EnhancedResultsGenerator._combine_scores` with the
`ranking_weights` table `0.7 / 0.1 / 0.15 / 0.05`, capped at `1.0`. -/
def combineScores (basicSimilarity : ℚ) (f : RankFactors) : ℚ :=
  min (basicSimilarity * (7/10) + f.document_length * (1/10) +
    f.title_match * (15/100) + f.url_authority * (5/100)) 1

/-- A one-document index (document `d1` containing the single term `appl`),
used to evaluate the boolean-search claims on concrete input. -/
def exampleIndexState : IndexState :=
  { index := [("appl", [("d1", [0])])],
    document_metadata := [("d1", { url := "", title := "", word_count := 1, token_count := 1 })],
    vocabulary := ["appl"],
    total_documents := 1 }

lemma relevantStep_absent (st : IndexState) (acc : List String) (t : String)
    (h : alistGet? st.index t = none) : relevantStep st acc t = acc := by
  unfold relevantStep
  rw [h]

lemma foldl_relevantStep_nil (st : IndexState) :
    ∀ (l : List String), (∀ t ∈ l, alistGet? st.index t = none) →
      List.foldl (relevantStep st) [] l = [] := by
  intro l
  induction l with
  | nil => intro _; rfl
  | cons t ts ih =>
      intro h
      rw [List.foldl_cons, relevantStep_absent st [] t (h t (List.mem_cons_self t ts))]
      exact ih fun x hx => h x (List.mem_cons_of_mem _ hx)

lemma foldl_length_eq {β γ : Type _} (step : List γ → β → List γ)
    (h : ∀ vec b, (step vec b).length = vec.length) :
    ∀ (l : List β) (vec : List γ), (l.foldl step vec).length = vec.length := by
  intro l
  induction l with
  | nil => intro _; rfl
  | cons b bs ih => intro vec; rw [List.foldl_cons, ih, h]

/-- C1 counterexample: in a one-document index over the term `appl`, the
query term list `["appl", "zzz"]` contains the term `zzz` that is absent
from the vocabulary, yet boolean search returns a non-empty result list
(the absent term is skipped, not intersected). -/
theorem searchTerms_absent_term_counterexample :
    "zzz" ∉ exampleIndexState.vocabulary ∧
      searchTerms exampleIndexState ["appl", "zzz"] 10 ≠ [] := by
  decide

/-- C1 (amended): for every query whose normalised term list consists only
of terms absent from the index's term mapping, boolean search
(`InvertedIndex.search`) returns an empty result list; terms absent from
the vocabulary are skipped by the intersection loop, so a mixed query is
not forced to an empty result. -/
theorem searchTerms_all_absent_empty (st : IndexState)
    (queryTerms : List String) (topK : Nat)
    (h : ∀ t ∈ queryTerms, alistGet? st.index t = none) :
    searchTerms st queryTerms topK = [] := by
  by_cases hq : queryTerms = []
  · simp [searchTerms, hq]
  · have hrel : relevantDocs st queryTerms = [] := foldl_relevantStep_nil st queryTerms h
    simp [searchTerms, hq, relevantDocs] at hrel ⊢
    simp [hrel]

/-- Witness for the amended C1 theorem at a concrete absent-only query. -/
theorem searchTerms_all_absent_empty_witness :
    (∀ t ∈ ["zzz", "qqq"], alistGet? exampleIndexState.index t = none) ∧
      searchTerms exampleIndexState ["zzz", "qqq"] 5 = [] :=
  ⟨by decide, searchTerms_all_absent_empty exampleIndexState ["zzz", "qqq"] 5 (by decide)⟩

/-- C5: cosine similarity (`CosineSimilarity.calculate_similarity`, and the
same computation inlined in `TFIDFCalculator.get_document_scores`) returns
exactly `0.0` whenever either vector has zero norm; the zero-norm guard
runs before the division, so the total functions never divide by zero. -/
theorem calculateSimilarity_zero_norm :
    (∀ (a b : List ℝ), normVia Real.sqrt a = 0 ∨ normVia Real.sqrt b = 0 →
      calculateSimilarity Real.sqrt a b = 0) ∧
    (∀ (c : TfidfCalc ℝ) (qv : List ℝ) (dv : String × List ℝ),
      dv ∈ c.document_vectors →
      Real.sqrt (dotList qv qv) = 0 ∨ Real.sqrt (dotList dv.2 dv.2) = 0 →
      (dv.1, (0 : ℝ)) ∈ getDocumentScores Real.sqrt c qv) := by
  constructor
  · intro a b h
    unfold calculateSimilarity
    rw [if_pos h]
  · intro c qv dv hdv h
    unfold getDocumentScores
    refine List.mem_map.mpr ⟨dv, hdv, ?_⟩
    simp only [if_pos h]

/-- Witness for the C5 theorem: the zero vector against a unit vector. -/
theorem calculateSimilarity_zero_norm_witness :
    (normVia Real.sqrt [(0 : ℝ)] = 0 ∨ normVia Real.sqrt [(1 : ℝ)] = 0) ∧
      calculateSimilarity Real.sqrt [(0 : ℝ)] [(1 : ℝ)] = 0 :=
  ⟨Or.inl (by simp [normVia, dotList]),
   calculateSimilarity_zero_norm.1 [(0 : ℝ)] [(1 : ℝ)]
     (Or.inl (by simp [normVia, dotList]))⟩

/-- C9: adding a document whose content is empty, or whose preprocessing
yields no valid tokens, leaves the whole index state (posting index,
vocabulary, metadata, `total_documents`) unchanged, and the only diagnostic
recorded is a low-severity warning. -/
theorem addDocument_skip_frame (preprocess : String → List String)
    (st : IndexState) (documentId content : String) (metadata : Option MetaIn)
    (h : content = "" ∨ preprocess content = []) :
    (addDocument preprocess st documentId content metadata).1 = st ∧
      ∀ e ∈ (addDocument preprocess st documentId content metadata).2,
        e.level = LogLevel.warning := by
  by_cases hc : content = ""
  · constructor
    · simp [addDocument, hc]
    · intro e he
      simp [addDocument, hc] at he
      rw [he]
  · have htok : preprocess content = [] := h.resolve_left hc
    constructor
    · simp [addDocument, hc, htok]
    · intro e he
      simp [addDocument, hc, htok] at he
      rw [he]

/-- Witness for the C9 theorem: an empty-content document on the example
index. -/
theorem addDocument_skip_frame_witness :
    (("" : String) = "" ∨ (fun _ : String => ([] : List String)) "" = []) ∧
      ((addDocument (fun _ => []) exampleIndexState "d2" "" none).1 = exampleIndexState ∧
        ∀ e ∈ (addDocument (fun _ => []) exampleIndexState "d2" "" none).2,
          e.level = LogLevel.warning) :=
  ⟨Or.inl rfl,
   addDocument_skip_frame (fun _ => []) exampleIndexState "d2" "" none (Or.inl rfl)⟩

/-- C10: `TFIDFCalculator.get_query_vector` always returns a vector whose
length equals the current vocabulary size, returns the all-zero vector on
an empty query-term list, and (being a pure read of the calculator, as the
state-passing wrapper records) never mutates the calculator or the index. -/
theorem getQueryVector_spec (c : TfidfCalc ℝ) (queryTerms : List String) :
    (getQueryVector Real.log c queryTerms).length = c.index.vocabulary.length ∧
    (queryTerms = [] →
      getQueryVector Real.log c queryTerms =
        List.replicate c.index.vocabulary.length (0 : ℝ)) ∧
    (getQueryVectorRun Real.log c queryTerms).1 = c := by
  refine ⟨?_, ?_, rfl⟩
  · by_cases hq : queryTerms = []
    · simp [getQueryVector, hq]
    · unfold getQueryVector
      rw [if_neg hq]
      rw [foldl_length_eq _ ?_ _ _]
      · exact List.length_replicate _ _
      · intro vec tf
        cases halist : alistGet? c.term_to_index tf.1 <;>
          simp [halist, List.length_set]
  · intro hq
    simp [getQueryVector, hq]

/-- Witness for the C10 theorem: the empty query on an empty calculator. -/
theorem getQueryVector_spec_witness :
    (([] : List String) = [] ∧
      getQueryVector Real.log ⟨emptyIndex, [], []⟩ [] =
        List.replicate emptyIndex.vocabulary.length (0 : ℝ)) :=
  ⟨rfl, (getQueryVector_spec ⟨emptyIndex, [], []⟩ []).2.1 rfl⟩

lemma optionMapList_map {γ β : Type _} (f : β → γ) (g : γ → Option β)
    (h : ∀ x, g (f x) = some x) : ∀ l : List β, optionMapList g (l.map f) = some l := by
  intro l
  induction l with
  | nil => rfl
  | cons x xs ih => simp [optionMapList, h x, ih]

lemma decodePositions_encode (ps : List Nat) :
    decodePositions (encodePositions ps) = some ps := by
  simp only [decodePositions, encodePositions]
  exact optionMapList_map _ _ (fun p => by simp [Int.ofNat_eq_natCast]) ps

lemma decodePostings_encode (docs : List (String × List Nat)) :
    decodePostings (encodePostings docs) = some docs := by
  simp only [decodePostings, encodePostings]
  exact optionMapList_map _ _ (fun d => by simp [decodePositions_encode]) docs

lemma decodeIndexMap_encode (idx : List (String × List (String × List Nat))) :
    decodeIndexMap (encodeIndexMap idx) = some idx := by
  simp only [decodeIndexMap, encodeIndexMap]
  exact optionMapList_map _ _ (fun t => by simp [decodePostings_encode]) idx

lemma decodeMeta_encode (m : DocMeta) : decodeMeta (encodeMeta m) = some m := by
  simp [decodeMeta, encodeMeta]

/-- C8: `save_index` followed by `load_index` on a fresh instance
reproduces the exact index state: the term-to-document-to-positions
mappings, the document metadata, the vocabulary and the total-document
count all round-trip through the JSON document. -/
theorem loadIndex_saveIndex (st : IndexState) :
    loadIndex (saveIndex st) = some st := by
  unfold loadIndex saveIndex
  simp only [alistGet?, String.reduceEq, reduceIte]
  rw [decodeIndexMap_encode]
  rw [optionMapList_map (fun d => (d.1, encodeMeta d.2))
    (fun f => (decodeMeta f.2).map fun m => (f.1, m))
    (fun d => by simp [decodeMeta_encode]) st.document_metadata]
  rw [optionMapList_map JVal.jstr
    (fun x => match x with | JVal.jstr s => some s | _ => none)
    (fun s => rfl) st.vocabulary]
  simp

lemma pyStrip_eq_empty_of_short (q : String) (h : q.length < minQueryLength) :
    pyStrip q = "" := by
  have hd : q.data = [] := List.eq_nil_of_length_eq_zero (Nat.lt_one_iff.mp h)
  show String.mk (stripChars q.data) = ""
  rw [hd]
  rfl

set_option maxRecDepth 10000 in
/-- C7: `validate_query` fails with a terminal verdict exactly when the
query is empty or whitespace-only, longer than 200 characters, or contains
a character outside the allow-list; each failure carries its distinct
error code (`EMPTY_QUERY`, `QUERY_TOO_LONG`, `INVALID_CHARACTERS` with the
offending characters listed), and only a query passing every guard reaches
the cleaning/spell-check/expansion stage; in particular a 201-character
query is rejected as too long and a query containing `@` is rejected for
invalid characters listing `@`. -/
theorem validateQuery_spec (q : String) :
    ((∃ code chars, validateQuery q = .invalid code chars) ↔
      (pyStrip q = "" ∨ maxQueryLength < q.length ∨
        ∃ c ∈ q.toList, allowedChar c = false)) ∧
    (pyStrip q = "" → validateQuery q = .invalid .emptyQuery []) ∧
    (pyStrip q ≠ "" → maxQueryLength < q.length →
      validateQuery q = .invalid .queryTooLong []) ∧
    (pyStrip q ≠ "" → q.length ≤ maxQueryLength →
      (∃ c ∈ q.toList, allowedChar c = false) →
      validateQuery q = .invalid .invalidCharacters (findInvalidCharacters q)) ∧
    validateQuery (String.mk (List.replicate 201 'a')) = .invalid .queryTooLong [] ∧
    validateQuery "hello @world" = .invalid .invalidCharacters ['@'] := by
  refine ⟨?_, ?_, ?_, ?_, by decide, by decide⟩
  · unfold validateQuery
    split_ifs with h1 h2 h3 h4
    · exact iff_of_true ⟨_, _, rfl⟩ (Or.inl h1)
    · exact absurd (pyStrip_eq_empty_of_short q h2) h1
    · exact iff_of_true ⟨_, _, rfl⟩ (Or.inr (Or.inl h3))
    · refine iff_of_true ⟨_, _, rfl⟩ (Or.inr (Or.inr ?_))
      simpa [List.all_eq_true] using h4
    · constructor
      · rintro ⟨code, chars, hcontra⟩
        exact absurd hcontra (by simp)
      · rintro (h | h | ⟨c, hc, hbad⟩)
        · exact absurd h h1
        · exact absurd h h3
        · have hall : q.toList.all allowedChar = true := by simpa using h4
          rw [List.all_eq_true.mp hall c hc] at hbad
          exact absurd hbad (by decide)
  · intro h1
    unfold validateQuery
    rw [if_pos h1]
  · intro h1 h3
    unfold validateQuery
    rw [if_neg h1, if_neg fun h2 => h1 (pyStrip_eq_empty_of_short q h2), if_pos h3]
  · rintro h1 hlen ⟨c, hc, hbad⟩
    unfold validateQuery
    rw [if_neg h1, if_neg fun h2 => h1 (pyStrip_eq_empty_of_short q h2),
      if_neg (Nat.not_lt.mpr hlen), if_pos]
    simp only [Bool.not_eq_true']
    exact List.all_eq_false.mpr ⟨c, hc, by simp [hbad]⟩

/-- Witness for the C7 theorem: a whitespace-only query is rejected as
empty. -/
theorem validateQuery_spec_witness :
    pyStrip "   " = "" ∧ validateQuery "   " = .invalid .emptyQuery [] :=
  ⟨by decide, (validateQuery_spec "   ").2.1 (by decide)⟩

lemma pickBest_eq_none (l : List (ℚ × String)) : pickBest l = none ↔ l = [] := by
  cases l with
  | nil => simp [pickBest]
  | cons c cs =>
      cases hp : pickBest cs with
      | none => simp [pickBest, hp]
      | some best => simp only [pickBest, hp]; constructor <;> intro h
                     · split_ifs at h
                     · cases h

lemma pickBest_mem : ∀ (l : List (ℚ × String)) (b : ℚ × String),
    pickBest l = some b → b ∈ l := by
  intro l
  induction l with
  | nil => intro b h; cases h
  | cons c cs ih =>
      intro b h
      cases hp : pickBest cs with
      | none =>
          simp only [pickBest, hp] at h
          cases h
          exact List.mem_cons_self c cs
      | some best =>
          simp only [pickBest, hp] at h
          split_ifs at h
          · cases h
            exact List.mem_cons_self c cs
          · cases h
            exact List.mem_cons_of_mem _ (ih _ hp)

lemma pickBest_max : ∀ (l : List (ℚ × String)) (b : ℚ × String),
    pickBest l = some b → ∀ c ∈ l, c.1 ≤ b.1 := by
  intro l
  induction l with
  | nil => intro b h; cases h
  | cons c cs ih =>
      intro b h x hx
      cases hp : pickBest cs with
      | none =>
          simp only [pickBest, hp] at h
          cases h
          rcases List.mem_cons.mp hx with hx | hx
          · rw [hx]
          · rw [(pickBest_eq_none cs).mp hp] at hx
            cases hx
      | some best =>
          simp only [pickBest, hp] at h
          split_ifs at h with hcond
          · cases h
            rcases List.mem_cons.mp hx with hx | hx
            · rw [hx]
            · have hxb := ih _ hp x hx
              rcases hcond with hlt | ⟨heq, _⟩
              · exact le_of_lt (lt_of_le_of_lt hxb hlt)
              · rw [← heq] at hxb
                exact hxb
          · cases h
            rcases List.mem_cons.mp hx with hx | hx
            · rw [hx]
              push_neg at hcond
              exact hcond.1
            · exact ih _ hp x hx

lemma pickBest_of_ne_nil (l : List (ℚ × String)) (h : l ≠ []) :
    ∃ b, pickBest l = some b := by
  cases hp : pickBest l with
  | none => exact absurd ((pickBest_eq_none l).mp hp) h
  | some b => exact ⟨b, rfl⟩

lemma serch_search_editDistance :
    editDistance (toLowerStr "serch") (toLowerStr "search") = 1 := by
  decide

lemma serch_search_sim : candidateSimilarity "serch" "search" = 5/6 := by
  unfold candidateSimilarity
  rw [serch_search_editDistance,
    show (max "serch".length "search".length : Nat) = 6 from rfl]
  norm_num

lemma serch_search_sim_gt : 3/5 < candidateSimilarity "serch" "search" := by
  rw [serch_search_sim]
  norm_num

lemma threshold_iff_nat (w v : String) (hw : 0 < w.length) :
    (3/5 < candidateSimilarity w v ↔
      5 * editDistance (toLowerStr w) (toLowerStr v) < 2 * max w.length v.length) := by
  unfold candidateSimilarity
  set d := editDistance (toLowerStr w) (toLowerStr v) with hd
  set m := max w.length v.length with hmx
  have hm : 0 < m := lt_of_lt_of_le hw (le_max_left _ _)
  have hmq : (0 : ℚ) < (m : ℚ) := by exact_mod_cast hm
  have h1 : ((3 : ℚ)/5 < 1 - (d : ℚ) / (m : ℚ)) ↔ (d : ℚ) / (m : ℚ) < 2/5 := by
    constructor <;> intro h <;> linarith
  rw [h1, div_lt_div_iff₀ hmq (by norm_num : (0 : ℚ) < 5)]
  constructor
  · intro h
    have hq : ((5 * d : Nat) : ℚ) < ((2 * m : Nat) : ℚ) := by
      push_cast
      linarith
    exact_mod_cast hq
  · intro h
    have hq : ((5 * d : Nat) : ℚ) < ((2 * m : Nat) : ℚ) := by exact_mod_cast h
    push_cast at hq
    linarith

lemma serch_filter_eval :
    thresholdCandidates validatorVocabulary "serch" = [(5/6, "search")] := by
  unfold thresholdCandidates
  rw [List.filter_congr
    (fun v _ => decide_eq_decide.mpr (threshold_iff_nat "serch" v (by decide)))]
  rw [show validatorVocabulary.filter
      (fun v => decide (5 * editDistance (toLowerStr "serch") (toLowerStr v) <
        2 * max "serch".length v.length)) = ["search"] from by decide]
  simp [serch_search_sim]

/-- C6: `_find_best_correction` returns the token unchanged when no
vocabulary candidate clears the `0.6` similarity threshold, and otherwise
returns a vocabulary candidate that clears the threshold and has maximal
normalised similarity; `_calculate_confidence` reports
`similarity * min(len(original)/10, 1.0)`; and against the validator's
actual start-up vocabulary, `"serch"` is corrected to `"search"`, whose
similarity is at least `0.6`. -/
theorem findBestCorrection_spec (vocabulary : List String) (word : String) :
    ((∀ v ∈ vocabulary, ¬(3/5 < candidateSimilarity word v)) →
      findBestCorrection vocabulary word = word) ∧
    (∀ v ∈ vocabulary, 3/5 < candidateSimilarity word v →
      findBestCorrection vocabulary word ∈ vocabulary ∧
      3/5 < candidateSimilarity word (findBestCorrection vocabulary word) ∧
      candidateSimilarity word v ≤
        candidateSimilarity word (findBestCorrection vocabulary word)) ∧
    (∀ original correction : String,
      calculateConfidence original correction =
        candidateSimilarity original correction *
          min ((original.length : ℚ) / 10) 1) ∧
    (findBestCorrection validatorVocabulary "serch" = "search" ∧
      3/5 ≤ candidateSimilarity "serch" "search") := by
  refine ⟨?_, ?_, fun _ _ => rfl, ?_, ?_⟩
  case refine_3 =>
    unfold findBestCorrection
    rw [serch_filter_eval]
    rfl
  case refine_4 =>
    rw [serch_search_sim]
    norm_num
  · intro h
    have hfil : vocabulary.filter (fun v => decide (3/5 < candidateSimilarity word v)) = [] := by
      rw [List.filter_eq_nil_iff]
      intro v hv
      simpa using h v hv
    unfold findBestCorrection thresholdCandidates
    rw [hfil]
    rfl
  · intro v hv hsim
    have hvf : v ∈ vocabulary.filter (fun v => decide (3/5 < candidateSimilarity word v)) :=
      List.mem_filter.mpr ⟨hv, by simpa using hsim⟩
    have hmem : (candidateSimilarity word v, v) ∈ thresholdCandidates vocabulary word := by
      unfold thresholdCandidates
      exact List.mem_map_of_mem _ hvf
    obtain ⟨b, hb⟩ := pickBest_of_ne_nil _ (List.ne_nil_of_mem hmem)
    have hres : findBestCorrection vocabulary word = b.2 := by
      unfold findBestCorrection
      rw [hb]
    obtain ⟨v', hv'f, hv'⟩ := List.mem_map.mp (pickBest_mem _ _ hb)
    have hb2 : b.2 = v' := by rw [← hv']
    have hb1 : b.1 = candidateSimilarity word v' := by rw [← hv']
    refine ⟨?_, ?_, ?_⟩
    · rw [hres, hb2]
      exact (List.mem_filter.mp hv'f).1
    · rw [hres, hb2]
      have := (List.mem_filter.mp hv'f).2
      simpa using this
    · have hle := pickBest_max _ _ hb _ hmem
      rw [hres, hb2, ← hb1]
      exact hle

/-- Witness for the C6 theorem: a one-word vocabulary containing `search`
corrects `serch`. -/
theorem findBestCorrection_spec_witness :
    ("search" ∈ ["search"] ∧ 3/5 < candidateSimilarity "serch" "search") ∧
      (findBestCorrection ["search"] "serch" ∈ ["search"] ∧
        3/5 < candidateSimilarity "serch" (findBestCorrection ["search"] "serch") ∧
        candidateSimilarity "serch" "search" ≤
          candidateSimilarity "serch" (findBestCorrection ["search"] "serch")) :=
  ⟨⟨by decide, serch_search_sim_gt⟩,
   (findBestCorrection_spec ["search"] "serch").2.1 "search" (by decide)
     serch_search_sim_gt⟩

lemma authorityLookup_bounds :
    ∀ (l : List (String × ℚ)) (url : String),
      (∀ p ∈ l, 0 ≤ p.2 ∧ p.2 ≤ 1) →
      0 ≤ authorityLookup l url ∧ authorityLookup l url ≤ 1 := by
  intro l
  induction l with
  | nil =>
      intro url _
      unfold authorityLookup
      norm_num
  | cons p ps ih =>
      intro url h
      obtain ⟨domain, score⟩ := p
      unfold authorityLookup
      split_ifs
      · exact h (domain, score) (List.mem_cons_self _ _)
      · exact ih url fun q hq => h q (List.mem_cons_of_mem _ hq)

lemma authorityScores_bounds : ∀ p ∈ authorityScores, 0 ≤ p.2 ∧ p.2 ≤ 1 := by
  intro p hp
  fin_cases hp <;> norm_num

lemma factors_document_length (pp : String → List String) (meta : RankMeta)
    (qt : List String) :
    (calculateEnhancementFactors pp meta qt).document_length =
      (if 0 < meta.word_count then
        min ((meta.word_count : ℚ) / 1000) (1000 / (meta.word_count : ℚ))
       else 1/2) := by
  simp only [calculateEnhancementFactors]
  cases meta.timestamp <;> split_ifs <;> rfl

lemma factors_url_authority (pp : String → List String) (meta : RankMeta)
    (qt : List String) :
    (calculateEnhancementFactors pp meta qt).url_authority =
      (if meta.url ≠ "" then calculateUrlAuthority meta.url else 1/2) := by
  simp only [calculateEnhancementFactors]
  cases meta.timestamp <;> split_ifs <;> rfl

lemma factors_title_match_bounds (pp : String → List String) (meta : RankMeta)
    (qt : List String) :
    0 ≤ (calculateEnhancementFactors pp meta qt).title_match ∧
      (calculateEnhancementFactors pp meta qt).title_match ≤ 1 := by
  have hoverlap : ∀ x : ℚ, 0 ≤ x → 0 ≤ min (x * 2) 1 ∧ min (x * 2) 1 ≤ 1 :=
    fun x hx => ⟨le_min (by linarith) (by norm_num), min_le_right _ _⟩
  simp only [calculateEnhancementFactors]
  cases meta.timestamp <;> split_ifs <;>
    first
      | exact ⟨le_refl 0, by norm_num⟩
      | exact hoverlap _ (by positivity)

/-- C3 counterexample: for a document whose token count `L` is `0`, the
enhanced ranking leaves the length-normalisation factor at its neutral
default `0.5`, not `0` as claimed. -/
theorem lengthNorm_zero_counterexample :
    (calculateEnhancementFactors (fun _ => [])
        { word_count := 0, title := "", url := "", timestamp := none }
        []).document_length = 1/2 ∧
      ¬((calculateEnhancementFactors (fun _ => [])
        { word_count := 0, title := "", url := "", timestamp := none }
        []).document_length = 0) := by
  have h : (calculateEnhancementFactors (fun _ => [])
      { word_count := 0, title := "", url := "", timestamp := none }
      []).document_length = 1/2 := rfl
  refine ⟨h, ?_⟩
  rw [h]
  norm_num

/-- C3 (amended): the composite score equals
`similarity*0.7 + length_norm*0.1 + title_overlap*0.15 + authority*0.05`
capped at `1.0`, each computed enhancement factor lies in `[0, 1]`, and
`length_norm = min(L/1000, 1000/L)` for positive token count `L` while for
`L = 0` it keeps the neutral default `0.5` (not `0`). -/
theorem combineScores_spec (pp : String → List String) (meta : RankMeta)
    (queryTerms : List String) (basicSimilarity : ℚ) :
    combineScores basicSimilarity (calculateEnhancementFactors pp meta queryTerms) =
      min (basicSimilarity * (7/10) +
        (calculateEnhancementFactors pp meta queryTerms).document_length * (1/10) +
        (calculateEnhancementFactors pp meta queryTerms).title_match * (15/100) +
        (calculateEnhancementFactors pp meta queryTerms).url_authority * (5/100)) 1 ∧
    (0 ≤ (calculateEnhancementFactors pp meta queryTerms).document_length ∧
      (calculateEnhancementFactors pp meta queryTerms).document_length ≤ 1) ∧
    (0 ≤ (calculateEnhancementFactors pp meta queryTerms).title_match ∧
      (calculateEnhancementFactors pp meta queryTerms).title_match ≤ 1) ∧
    (0 ≤ (calculateEnhancementFactors pp meta queryTerms).url_authority ∧
      (calculateEnhancementFactors pp meta queryTerms).url_authority ≤ 1) ∧
    (calculateEnhancementFactors pp meta queryTerms).document_length =
      (if 0 < meta.word_count then
        min ((meta.word_count : ℚ) / 1000) (1000 / (meta.word_count : ℚ))
       else 1/2) := by
  refine ⟨rfl, ?_, factors_title_match_bounds pp meta queryTerms, ?_,
    factors_document_length pp meta queryTerms⟩
  · rw [factors_document_length]
    split_ifs with hwc
    · have hq : (0 : ℚ) < (meta.word_count : ℚ) := by exact_mod_cast hwc
      constructor
      · exact le_min (by positivity) (by positivity)
      · rcases le_or_lt meta.word_count 1000 with hle | hgt
        · refine le_trans (min_le_left _ _) ?_
          rw [div_le_one (by norm_num : (0:ℚ) < 1000)]
          exact_mod_cast hle
        · refine le_trans (min_le_right _ _) ?_
          rw [div_le_one hq]
          exact_mod_cast le_of_lt hgt
    · norm_num
  · rw [factors_url_authority]
    split_ifs
    · exact authorityLookup_bounds authorityScores meta.url authorityScores_bounds
    · norm_num

/-- C4 counterexample: `rank_documents` on a zero query vector (every
similarity is exactly `0.0`, so all documents tie) keeps the dictionary's
insertion order `b` before `a`; it does not break ties by ascending
document id, which would put `a` first. -/
theorem rankDocuments_tie_counterexample :
    (rankDocuments Real.sqrt [(0 : ℝ)] [("b", [(1 : ℝ)]), ("a", [(1 : ℝ)])] 10).map
        Prod.fst = ["b", "a"] ∧
      (["b", "a"] : List String) ≠ ["a", "b"] := by
  constructor
  · have hsim : ∀ v : List ℝ, calculateSimilarity Real.sqrt [(0 : ℝ)] v = 0 := by
      intro v
      unfold calculateSimilarity normVia
      rw [if_pos (Or.inl (by simp [dotList]))]
    unfold rankDocuments
    simp only [List.map_cons, List.map_nil, hsim]
    simp [List.insertionSort, List.orderedInsert, bySimDesc]
  · decide

/-- C4 (amended): both result-ordering operations sort descending by score
and truncate to `top_k`; the sort is Python's stable sort, so tied entries
keep their traversal order (the `document_vectors` insertion order for
`rank_documents`, the relevant-document traversal order for
`InvertedIndex.search`) rather than being reordered by ascending document
id. -/
theorem ranking_sorted_spec :
    (∀ (queryVector : List ℝ) (documentVectors : List (String × List ℝ)) (topK : Nat),
      List.Sorted bySimDesc (rankDocuments Real.sqrt queryVector documentVectors topK) ∧
      (rankDocuments Real.sqrt queryVector documentVectors topK).length =
        min topK documentVectors.length) ∧
    (∀ (st : IndexState) (queryTerms : List String) (topK : Nat),
      List.Sorted byScoreDesc (searchTerms st queryTerms topK)) := by
  constructor
  · intro queryVector documentVectors topK
    constructor
    · unfold rankDocuments
      exact List.Pairwise.sublist (List.take_sublist _ _)
        (List.sorted_insertionSort bySimDesc _)
    · unfold rankDocuments
      rw [List.length_take, List.length_insertionSort, List.length_map]
  · intro st queryTerms topK
    unfold searchTerms
    split_ifs
    · exact List.sorted_nil
    · exact List.Pairwise.sublist (List.take_sublist _ _)
        (List.sorted_insertionSort byScoreDesc _)

lemma writeEntries_length {α : Type _} (f : String → Option α) :
    ∀ (ps : List (String × Nat)) (vec : List α),
      (writeEntries f ps vec).length = vec.length := by
  intro ps
  induction ps with
  | nil => intro vec; rfl
  | cons p ps ih =>
      intro vec
      obtain ⟨t, i⟩ := p
      show (writeEntries f ps _).length = _
      cases hf : f t
      · simp only [hf]
        exact ih vec
      · simp only [hf]
        rw [ih, List.length_set]

lemma writeEntries_get_other {α : Type _} (f : String → Option α) (m : Nat) :
    ∀ (ps : List (String × Nat)) (vec : List α), (∀ p ∈ ps, p.2 ≠ m) →
      (writeEntries f ps vec)[m]? = vec[m]? := by
  intro ps
  induction ps with
  | nil => intro vec _; rfl
  | cons p ps ih =>
      intro vec h
      obtain ⟨t, i⟩ := p
      have hi : i ≠ m := h (t, i) (List.mem_cons_self _ _)
      show (writeEntries f ps _)[m]? = _
      rw [ih _ fun q hq => h q (List.mem_cons_of_mem _ hq)]
      cases hf : f t
      · simp only [hf]
      · simp only [hf]
        exact List.getElem?_set_ne hi

lemma enumerateFrom_snd_ge :
    ∀ (l : List String) (n : Nat) (p : String × Nat),
      p ∈ enumerateFrom n l → n ≤ p.2 := by
  intro l
  induction l with
  | nil => intro n p h; cases h
  | cons t ts ih =>
      intro n p h
      rcases List.mem_cons.mp h with h | h
      · rw [h]
      · exact le_trans (Nat.le_succ n) (ih (n + 1) p h)

lemma writeEntries_enum_get {α : Type _} (f : String → Option α) :
    ∀ (l : List String) (n : Nat) (vec : List α) (t : String),
      l.Nodup → t ∈ l → n + l.indexOf t < vec.length →
      (writeEntries f (enumerateFrom n l) vec)[n + l.indexOf t]? =
        (f t).or vec[n + l.indexOf t]? := by
  intro l
  induction l with
  | nil => intro n vec t _ ht; cases ht
  | cons hd tl ih =>
      intro n vec t hnd ht hlt
      by_cases hth : t = hd
      · subst hth
        rw [List.indexOf_cons_self] at hlt ⊢
        rw [Nat.add_zero] at hlt ⊢
        show (writeEntries f (enumerateFrom (n + 1) tl) _)[n]? = _
        rw [writeEntries_get_other f n _ _ fun p hp =>
          Nat.ne_of_gt (lt_of_lt_of_le (Nat.lt_succ_self n)
            (enumerateFrom_snd_ge tl (n + 1) p hp))]
        cases hf : f t
        · simp only [hf, Option.or]
        · simp only [hf]
          rw [List.getElem?_set_eq_of_lt _ hlt]
          rfl
      · have htl : t ∈ tl := (List.mem_cons.mp ht).resolve_left hth
        have hidx : List.indexOf t (hd :: tl) = List.indexOf t tl + 1 :=
          List.indexOf_cons_ne tl (Ne.symm hth)
        rw [hidx] at hlt ⊢
        have harith : n + (List.indexOf t tl + 1) = (n + 1) + List.indexOf t tl := by
          omega
        rw [harith] at hlt ⊢
        show (writeEntries f (enumerateFrom (n + 1) tl) _)[_]? = _
        have hnd' : tl.Nodup := (List.nodup_cons.mp hnd).2
        cases hf : f hd
        · simp only [hf]
          exact ih (n + 1) vec t hnd' htl hlt
        · simp only [hf]
          rw [ih (n + 1) _ t hnd' htl (by rw [List.length_set]; exact hlt)]
          rw [List.getElem?_set_ne (by omega : n ≠ (n + 1) + List.indexOf t tl)]

/-- C2: after `calculate_tfidf`, the vector component of document `doc` at
the dimension of vocabulary term `t` equals `TF * IDF` with
`TF = term_frequency(t, doc) / max(1, word_count(doc))` and
`IDF = ln((N + 1) / (document_frequency(t) + 1)) + 1`; for a term present
in the document this weight is strictly positive. The hypotheses state the
invariants every pipeline-built index satisfies: the vocabulary holds no
duplicates, the document's stored word count is at least 1 (`add_document`
stores the token count of a non-empty token list), and no term occurs in
more documents than were added. -/
theorem tfidfVector_component (st : IndexState) (docId t : String)
    (hnd : st.vocabulary.Nodup) (ht : t ∈ st.vocabulary)
    (hwc : 1 ≤ docWordCount st docId)
    (hdf : getDocumentFrequency st t ≤ st.total_documents) :
    (tfidfVector Real.log st docId)[st.vocabulary.indexOf t]? =
      some ((getTermFrequency st t docId : ℝ) /
          ((max 1 (docWordCount st docId) : Nat) : ℝ) *
        (Real.log (((st.total_documents : ℝ) + 1) /
          ((getDocumentFrequency st t : ℝ) + 1)) + 1)) ∧
    (1 ≤ getTermFrequency st t docId →
      0 < (getTermFrequency st t docId : ℝ) /
          ((max 1 (docWordCount st docId) : Nat) : ℝ) *
        (Real.log (((st.total_documents : ℝ) + 1) /
          ((getDocumentFrequency st t : ℝ) + 1)) + 1)) := by
  have hmax : max 1 (docWordCount st docId) = docWordCount st docId :=
    Nat.max_eq_right hwc
  have hlogpos : 0 ≤ Real.log (((st.total_documents : ℝ) + 1) /
      ((getDocumentFrequency st t : ℝ) + 1)) := by
    apply Real.log_nonneg
    rw [le_div_iff₀ (by positivity)]
    have hcast : (getDocumentFrequency st t : ℝ) ≤ (st.total_documents : ℝ) := by
      exact_mod_cast hdf
    linarith
  constructor
  · have hidx : st.vocabulary.indexOf t < st.vocabulary.length :=
      List.indexOf_lt_length.mpr ht
    have hmain := writeEntries_enum_get (fun tm => tfidfEntry? Real.log st docId tm)
      st.vocabulary 0 (List.replicate st.vocabulary.length (0 : ℝ)) t hnd ht
      (by rw [List.length_replicate]; omega)
    rw [Nat.zero_add] at hmain
    unfold tfidfVector
    rw [hmain, hmax]
    unfold tfidfEntry? getTermFrequency getDocumentFrequency
    cases h1 : alistGet? st.index t with
    | none =>
        simp [h1, List.getElem?_replicate, hidx]
    | some docs =>
        cases h2 : alistGet? docs docId with
        | none =>
            simp [h1, h2, List.getElem?_replicate, hidx]
        | some positions =>
            simp [h1, h2, Option.or]
  · intro htf
    have hwcR : (0 : ℝ) < ((max 1 (docWordCount st docId) : Nat) : ℝ) := by
      rw [hmax]
      exact_mod_cast lt_of_lt_of_le Nat.zero_lt_one hwc
    have htfR : (0 : ℝ) < (getTermFrequency st t docId : ℝ) := by
      exact_mod_cast lt_of_lt_of_le Nat.zero_lt_one htf
    exact mul_pos (div_pos htfR hwcR) (by linarith)

/-- Witness for the C2 theorem at the concrete one-document index. -/
theorem tfidfVector_component_witness :
    (exampleIndexState.vocabulary.Nodup ∧
      "appl" ∈ exampleIndexState.vocabulary ∧
      1 ≤ docWordCount exampleIndexState "d1" ∧
      getDocumentFrequency exampleIndexState "appl" ≤
        exampleIndexState.total_documents) ∧
    ((tfidfVector Real.log exampleIndexState "d1")[
        exampleIndexState.vocabulary.indexOf "appl"]? =
      some ((getTermFrequency exampleIndexState "appl" "d1" : ℝ) /
          ((max 1 (docWordCount exampleIndexState "d1") : Nat) : ℝ) *
        (Real.log (((exampleIndexState.total_documents : ℝ) + 1) /
          ((getDocumentFrequency exampleIndexState "appl" : ℝ) + 1)) + 1)) ∧
      (1 ≤ getTermFrequency exampleIndexState "appl" "d1" →
        0 < (getTermFrequency exampleIndexState "appl" "d1" : ℝ) /
            ((max 1 (docWordCount exampleIndexState "d1") : Nat) : ℝ) *
          (Real.log (((exampleIndexState.total_documents : ℝ) + 1) /
            ((getDocumentFrequency exampleIndexState "appl" : ℝ) + 1)) + 1))) :=
  ⟨⟨by decide, by decide, by decide, by decide⟩,
   tfidfVector_component exampleIndexState "d1" "appl"
     (by decide) (by decide) (by decide) (by decide)⟩

end SearchEngine
